import Mathlib

/-!
Verification development for the sendkey repository.

The two engines under verification are the entry lifecycle engine
(`internal/app`, `EntryService`) and the token engine (`cmd/api`,
`tokenManager`).  Go values are embedded as follows:

* bytes (`[]byte`) are `List Nat` (each element a byte value);
* Go strings are Lean `String`; `[]byte(s)` is `strBytes s`;
* `uuid.UUID` is `Nat`, with `uuid.Nil = 0`; the decimal rendering
  `uuidStr`/`uuidParse` models `UUID.String`/`uuid.Parse` as an injective
  rendering with a partial inverse;
* `time.Time`/`time.Duration` are `Int` (instants and durations on one
  scale); `a.After(b)` is `b < a`;
* the SQL store (`internal/mysql/entries.go`) is an in-memory `Store` of
  row lists, with each repository method translated from its SQL statement;
* the library crypto primitives (SHA-256 key derivation and AES-GCM from
  the Go standard library) are modelled as an ideal injective KDF
  (`deriveKey`) and an ideal AEAD (`gcmSeal`/`gcmOpen`): opening succeeds
  exactly on the ciphertext sealed under the same key and nonce, which is
  the standard symbolic idealization of an authenticated cipher;
* fallible operations return `Option`: `none` is an infrastructure error
  propagated to the caller (Go's non-nil `error` return).
-/

namespace SendKey

/-- Byte view of a Go string: `[]byte(s)` (injective per code point). -/
def strBytes (s : String) : List Nat := s.data.map Char.toNat

/-- Whitespace test of Go's `unicode.IsSpace` restricted to the Latin-1
code points Go lists explicitly ('\t', '\n', '\v', '\f', '\r', ' ',
U+0085, U+00A0). -/
def isSpaceChar (c : Char) : Bool :=
  c == ' ' || c == '\t' || c == '\n' || c.toNat == 11 || c.toNat == 12 ||
    c == '\r' || c.toNat == 133 || c.toNat == 160

/-- Go `strings.TrimSpace`: drop leading and trailing whitespace. -/
def trimSpace (s : String) : String :=
  String.mk (((s.data.dropWhile isSpaceChar).reverse.dropWhile isSpaceChar).reverse)

/-- Lowercase hex digit for a nibble, as in Go's `encoding/hex` table. -/
def hexDigitChar (n : Nat) : Char :=
  if n < 10 then Char.ofNat (48 + n) else Char.ofNat (87 + n)

/-- Character list of Go's `hex.EncodeToString`: two lowercase digits per
byte, high nibble first. -/
def hexEncodeChars : List Nat → List Char
  | [] => []
  | b :: bs => hexDigitChar (b / 16 % 16) :: hexDigitChar (b % 16) :: hexEncodeChars bs

/-- Go `hex.EncodeToString`. -/
def hexEncode (bs : List Nat) : String := String.mk (hexEncodeChars bs)

/-- Value of one hex digit as accepted by Go's `hex.DecodeString`
(digits, lowercase and uppercase letters). -/
def hexDigitVal (c : Char) : Option Nat :=
  if 48 ≤ c.toNat ∧ c.toNat ≤ 57 then some (c.toNat - 48)
  else if 97 ≤ c.toNat ∧ c.toNat ≤ 102 then some (c.toNat - 87)
  else if 65 ≤ c.toNat ∧ c.toNat ≤ 70 then some (c.toNat - 55)
  else none

/-- Go `hex.DecodeString` over the character list: pairs of digits, error
on odd length or an invalid digit. -/
def hexDecodeChars : List Char → Option (List Nat)
  | [] => some []
  | [_] => none
  | a :: b :: rest =>
    match hexDigitVal a, hexDigitVal b, hexDecodeChars rest with
    | some hi, some lo, some r => some ((hi * 16 + lo) :: r)
    | _, _, _ => none

/-- Go `hex.DecodeString`. -/
def hexDecode (s : String) : Option (List Nat) := hexDecodeChars s.data

/-- Per-entry key of `EntryService.encrypt`/`decrypt`:
`sha256.Sum256(append(s.aesKey, secret...))`.  The hash is idealized as
injective, so the key is identified with its preimage bytes. -/
def deriveKey (aesKey : List Nat) (secret : String) : List Nat :=
  aesKey ++ strBytes secret

/-- Ideal AEAD seal (`aead.Seal(nil, nonce, value, nil)` for AES-GCM):
an injective packaging of key, nonce and plaintext. -/
def gcmSeal (key nonce pt : List Nat) : List Nat :=
  key.length :: (key ++ nonce.length :: (nonce ++ pt))

/-- Ideal AEAD open (`aead.Open(nil, nonce, value, nil)`): succeeds with
the plaintext exactly when the ciphertext was sealed under the same key
and nonce, and fails (authentication error) otherwise. -/
def gcmOpen (key nonce ct : List Nat) : Option (List Nat) :=
  match ct with
  | [] => none
  | kl :: r1 =>
    if kl = key.length ∧ r1.take kl = key then
      match r1.drop kl with
      | [] => none
      | nl :: r2 =>
        if nl = nonce.length ∧ r2.take nl = nonce then some (r2.drop nl)
        else none
    else none

/-- Decimal digit characters. -/
def decDigitChar (d : Nat) : Char := hexDigitChar (d % 10)

/-- Value of a decimal digit character. -/
def decDigitVal (c : Char) : Option Nat :=
  if 48 ≤ c.toNat ∧ c.toNat ≤ 57 then some (c.toNat - 48) else none

/-- Little-endian decimal digits of `n`, with enough fuel to terminate
(structural recursion on the fuel so the kernel can evaluate it). -/
def natDigitsRev (fuel n : Nat) : List Nat :=
  match fuel with
  | 0 => []
  | f + 1 => if n = 0 then [] else n % 10 :: natDigitsRev f (n / 10)

/-- The `uuid.UUID.String` rendering, modelled as the decimal rendering of
the identifier (injective, with `uuidParse` as partial inverse). -/
def uuidChars (n : Nat) : List Char :=
  if n = 0 then ['0'] else (natDigitsRev n n).reverse.map decDigitChar

/-- String form of an identifier (`userID.String()` in Go). -/
def uuidStr (n : Nat) : String := String.mk (uuidChars n)

/-- Little-endian parse of a digit character list. -/
def uuidParseRev : List Char → Option Nat
  | [] => some 0
  | c :: rest =>
    match decDigitVal c, uuidParseRev rest with
    | some d, some v => some (d + 10 * v)
    | _, _ => none

/-- `uuid.Parse`: succeeds exactly on renderings of identifiers. -/
def uuidParse (s : String) : Option Nat :=
  if s.data = [] then none else uuidParseRev s.data.reverse

/-- `uuid.Nil`. -/
def uuidNil : Nat := 0

/-! ## Data model (`sendkey.go`) -/

/-- `sendkey.Entry`. -/
structure Entry where
  id : Nat
  name : String
  sentByUserID : Nat
  sentToEmail : String
  nonce : List Nat
  value : List Nat
  invalidAttempts : Nat
  createdAtUTC : Int
  expiresAtUTC : Int
deriving DecidableEq, Repr

/-- `sendkey.ClaimedEntry`. -/
structure ClaimedEntry where
  entryID : Nat
  name : String
  sentByUserID : Nat
  sentToEmail : String
  claimedAtUTC : Int
deriving DecidableEq, Repr

/-- `sendkey.ExpiredEntry`. -/
structure ExpiredEntry where
  entryID : Nat
  name : String
  sentByUserID : Nat
  sentToEmail : String
  tooManyAttempts : Bool
  expiredAtUTC : Int
deriving DecidableEq, Repr

/-! ## Entry repository (`internal/mysql/entries.go` over in-memory rows) -/

/-- The durable tables behind `EntryRepository`. -/
structure Store where
  entries : List Entry
  claimed : List ClaimedEntry
  expired : List ExpiredEntry
deriving DecidableEq, Repr

/-- `entryStore.Find`: `SELECT ... FROM entries WHERE id = ?`. -/
def Store.findRow (s : Store) (id : Nat) : Option Entry :=
  s.entries.find? fun e => e.id == id

/-- Ordering used by `ORDER BY createdAtUtc`. -/
def createdLE (a b : Entry) : Prop := a.createdAtUTC ≤ b.createdAtUTC

instance : DecidableRel createdLE := fun a b => Int.decLe a.createdAtUTC b.createdAtUTC

instance : IsTotal Entry createdLE := ⟨fun a b => Int.le_total a.createdAtUTC b.createdAtUTC⟩

instance : IsTrans Entry createdLE := ⟨fun _ _ _ => Int.le_trans⟩

/-- `entryStore.FindByUserID`:
`SELECT ... WHERE sentByUserId = ? ORDER BY createdAtUtc`. -/
def Store.findByUserIDRows (s : Store) (userID : Nat) : List Entry :=
  List.insertionSort createdLE (s.entries.filter fun e => e.sentByUserID == userID)

/-- `entryStore.Delete`: `DELETE FROM entries WHERE id = ?`. -/
def Store.deleteRow (s : Store) (id : Nat) : Store :=
  { s with entries := s.entries.filter fun e => e.id != id }

/-- `entryStore.IncrementInvalidAttempts`:
`UPDATE entries SET invalidAttempts = invalidAttempts + 1 WHERE id = ?`
followed by `SELECT invalidAttempts ... WHERE id = ?` (`none` models the
scan error when no row is found). -/
def Store.incrementRow (s : Store) (id : Nat) : Store × Option Nat :=
  let es := s.entries.map fun e =>
    if e.id == id then { e with invalidAttempts := e.invalidAttempts + 1 } else e
  ({ s with entries := es },
    (es.find? fun e => e.id == id).map Entry.invalidAttempts)

/-- `entryStore.CreateClaimedEntry`: `INSERT INTO claimed_entries ...`. -/
def Store.createClaimedRow (s : Store) (ce : ClaimedEntry) : Store :=
  { s with claimed := s.claimed ++ [ce] }

/-- `entryStore.CreateExpiredEntry`: `INSERT INTO expired_entries ...`. -/
def Store.createExpiredRow (s : Store) (ee : ExpiredEntry) : Store :=
  { s with expired := s.expired ++ [ee] }

/-! ## Entry lifecycle engine (`internal/app`, `EntryService`) -/

/-- The configuration of `EntryService` (`aesKey`, `maxAttempts`). -/
structure EntryService where
  aesKey : List Nat
  maxAttempts : Nat
deriving DecidableEq, Repr

/-- The expired projection built by `EntryService.expireEntry`. -/
def mkExpired (e : Entry) (tooManyAttempts : Bool) (now : Int) : ExpiredEntry :=
  ⟨e.id, e.name, e.sentByUserID, e.sentToEmail, tooManyAttempts, now⟩

/-- `EntryService.expireEntry`: create the expired projection, then delete
the active row. -/
def expireEntry (s : Store) (now : Int) (e : Entry) (tooManyAttempts : Bool) :
    Store × ExpiredEntry :=
  let ee := mkExpired e tooManyAttempts now
  ((Store.createExpiredRow s ee).deleteRow e.id, ee)

/-- The claimed projection built by `EntryService.claimEntry`. -/
def mkClaimed (e : Entry) (now : Int) : ClaimedEntry :=
  ⟨e.id, e.name, e.sentByUserID, e.sentToEmail, now⟩

/-- `EntryService.claimEntry`: create the claimed projection, then delete
the active row. -/
def claimEntry (s : Store) (now : Int) (e : Entry) : Store × ClaimedEntry :=
  let ce := mkClaimed e now
  ((Store.createClaimedRow s ce).deleteRow e.id, ce)

/-- `EntryService.FindEntry`: look up by id; lazily expire when the
deadline has passed (`!entry.ExpiresAtUTC.After(now)`); otherwise compare
the hex rendering of the stored nonce with the presented string. -/
def findEntry (s : Store) (now : Int) (id : Nat) (nonce : String) :
    Store × Option Entry :=
  match s.findRow id with
  | none => (s, none)
  | some e =>
    if e.expiresAtUTC ≤ now then ((expireEntry s now e false).1, none)
    else if hexEncode e.nonce ≠ nonce then (s, none)
    else (s, some e)

/-- The loop body of `EntryService.FindByUserID`: keep entries whose
deadline is still in the future, lazily expire the rest. -/
def expireLoop (now : Int) : List Entry → Store → Store × List Entry
  | [], s => (s, [])
  | e :: rest, s =>
    if now < e.expiresAtUTC then
      ((expireLoop now rest s).1, e :: (expireLoop now rest s).2)
    else
      expireLoop now rest (expireEntry s now e false).1

/-- `EntryService.FindByUserID`. -/
def findByUserID (s : Store) (now : Int) (userID : Nat) : Store × List Entry :=
  expireLoop now (s.findByUserIDRows userID) s

/-- `EntryService.incrementInvalidAttempts`: atomically increment and
re-read the counter; expire with `tooManyAttempts` when the new count
reaches the configured maximum. -/
def svcIncrementInvalidAttempts (svc : EntryService) (s : Store) (now : Int)
    (e : Entry) : Option (Store × Option ExpiredEntry) :=
  let ir := s.incrementRow e.id
  match ir.2 with
  | none => none
  | some attempts =>
    if attempts ≥ svc.maxAttempts then
      some ((expireEntry ir.1 now e true).1, some (expireEntry ir.1 now e true).2)
    else some (ir.1, none)

/-- `app.CreateEntryRequest`. -/
structure CreateEntryRequest where
  name : String
  senderID : Nat
  sendToEmail : String
  value : String
  secret : String
  duration : Int
deriving DecidableEq, Repr

/-- `app.CreateEntryResponse`. -/
structure CreateEntryResponse where
  success : Bool
  errors : List String
  entry : Option Entry
deriving DecidableEq, Repr

/-- The validation error list accumulated by `EntryService.CreateEntry`,
in source order. -/
def createEntryErrors (req : CreateEntryRequest) : List String :=
  (if req.senderID = uuidNil then ["A sender ID is required."] else []) ++
  (if trimSpace req.name = "" then ["A name is required."] else []) ++
  (if trimSpace req.sendToEmail = "" then ["A send to email is required."] else []) ++
  (if trimSpace req.value = "" then ["A value is required."] else []) ++
  (if trimSpace req.secret = "" then ["A secret is required."] else []) ++
  (if req.duration ≤ 0 then ["Duration must be greater than 0."] else [])

/-- The entry `EntryService.CreateEntry` persists: encrypted value under
the key derived from the (untrimmed) secret, zero invalid attempts,
expiry `now + duration`. -/
def newEntry (svc : EntryService) (now : Int) (newID : Nat) (nonce : List Nat)
    (req : CreateEntryRequest) : Entry :=
  ⟨newID, req.name, req.senderID, trimSpace req.sendToEmail, nonce,
    gcmSeal (deriveKey svc.aesKey req.secret) nonce (strBytes req.value), 0,
    now, now + req.duration⟩

/-- `EntryService.CreateEntry`.  The freshly generated `uuid.New()` and
12-byte random nonce are passed explicitly (`newID`, `nonce`), as is the
current instant.  `SendEntry` is the no-op notification stub of the
source.  On validation failure nothing is written. -/
def createEntry (svc : EntryService) (s : Store) (now : Int) (newID : Nat)
    (nonce : List Nat) (req : CreateEntryRequest) : Store × CreateEntryResponse :=
  let errs := createEntryErrors req
  if errs ≠ [] then (s, ⟨false, errs, none⟩)
  else
    let entry := newEntry svc now newID nonce req
    ({ s with entries := s.entries ++ [entry] }, ⟨true, [], some entry⟩)

/-- `app.DecryptEntryRequest`. -/
structure DecryptEntryRequest where
  id : Nat
  nonce : String
  secret : String
deriving DecidableEq, Repr

/-- `app.DecryptEntryResponse` (the entry field carries the decrypted
value on success, as in the source). -/
structure DecryptEntryResponse where
  success : Bool
  errors : List String
  expired : Bool
  entry : Option Entry
deriving DecidableEq, Repr

/-- `EntryService.DecryptEntry`. -/
def decryptEntry (svc : EntryService) (s : Store) (now : Int)
    (req : DecryptEntryRequest) : Option (Store × DecryptEntryResponse) :=
  let fr := findEntry s now req.id req.nonce
  match fr.2 with
  | none => some (fr.1, ⟨false, ["Invalid entry ID."], false, none⟩)
  | some e =>
    match gcmOpen (deriveKey svc.aesKey req.secret) e.nonce e.value with
    | none =>
      match svcIncrementInvalidAttempts svc fr.1 now e with
      | none => none
      | some (s2, none) => some (s2, ⟨false, ["Invalid secret."], false, none⟩)
      | some (s2, some _) =>
        some (s2,
          ⟨false,
            ["Invalid secret.",
              "Too many attempts have been made, and the entry has been expired."],
            true, none⟩)
    | some value =>
      some ((claimEntry fr.1 now e).1, ⟨true, [], false, some { e with value := value }⟩)

/-! ## Token engine (`cmd/api`, `tokenManager`)

The jwt-go library (v3, HMAC signing methods and `MapClaims` time
validation) is modelled symbolically: a well-formed wire token is its
header algorithm, claim set and signature; the HMAC signature is an ideal
MAC (a tag determined by, and only by, the key, the algorithm and the
claims); string tokens that are not well-formed JWTs are the `malformed`
case, which `jwt.Parse` rejects with a `ValidationError`. -/

/-- The claim set as seen through `jwt.MapClaims`: the registered claims
the program touches.  `none` means the claim is absent (or, for `jti`,
not a string). -/
structure MapClaims where
  exp : Option Int
  iat : Option Int
  jti : Option String
deriving DecidableEq, Repr

/-- An ideal MAC tag: determined exactly by key, algorithm and claims. -/
structure MacTag where
  key : List Nat
  alg : String
  claims : MapClaims
deriving DecidableEq, Repr

/-- Signing (`jwt.NewWithClaims(method, claims).SignedString(key)`). -/
def hmacSign (key : List Nat) (alg : String) (claims : MapClaims) : MacTag :=
  ⟨key, alg, claims⟩

/-- A caller-presented token string, as `jwt.Parse` classifies it. -/
inductive Tok
  | empty
  | malformed (s : String)
  | jwt (alg : String) (claims : MapClaims) (sig : MacTag)
deriving DecidableEq, Repr

/-- The algorithms of the `jwt.SigningMethodHMAC` family. -/
def isHMACAlg (alg : String) : Bool :=
  alg == "HS256" || alg == "HS384" || alg == "HS512"

/-- The `Token` struct of `cmd/api` (token value plus Unix expiry). -/
structure Token where
  token : Tok
  expires : Int
deriving DecidableEq, Repr

/-- `tokenManager` configuration. -/
structure TokenManager where
  privateKey : List Nat
  accessTokenLifetime : Int
  refreshTokenLifetime : Int
deriving DecidableEq, Repr

/-- `tokenManager.AccessToken`: claims `exp = now + lifetime`,
`jti = userID.String()`, `iat = now`, signed with HS256 under the
configured key. -/
def accessToken (m : TokenManager) (now : Int) (userID : Nat) : Token :=
  let expires := now + m.accessTokenLifetime
  let claims : MapClaims := ⟨some expires, some now, some (uuidStr userID)⟩
  ⟨Tok.jwt "HS256" claims (hmacSign m.privateKey "HS256" claims), expires⟩

/-- `tokenManager.Verify`.  The error string is the message carried by
the `Error{StatusCode: 401, ...}` value the source returns; the
time-claim messages are those of jwt-go's `MapClaims.Valid`.  jwt-go
validates claims before the signature but reports a signature failure
with the signature error, so the signature check precedes the time
checks here. -/
def verify (m : TokenManager) (now : Int) (token : Tok) : Except String Nat :=
  match token with
  | Tok.empty => Except.error "no token provided"
  | Tok.malformed _ =>
    Except.error "token contains an invalid number of segments"
  | Tok.jwt alg claims sig =>
    if ¬ isHMACAlg alg then
      Except.error ("unexpected signing method: " ++ alg)
    else if sig ≠ hmacSign m.privateKey alg claims then
      Except.error "signature is invalid"
    else if claims.exp.any fun e => decide (e < now) then
      Except.error "Token is expired"
    else if claims.iat.any fun i => decide (now < i) then
      Except.error "Token used before issued"
    else
      match claims.jti with
      | none => Except.error "invalid token claims"
      | some idClaim =>
        match uuidParse idClaim with
        | none => Except.error "invalid token claims"
        | some id => Except.ok id

/-- Ids of the rows in the active table. -/
def activeIds (s : Store) : List Nat := s.entries.map Entry.id

/-- Number of expired projections recorded for an id. -/
def expiredCount (s : Store) (id : Nat) : Nat :=
  (s.expired.filter fun ee => ee.entryID == id).length

/-- Number of claimed projections recorded for an id. -/
def claimedCount (s : Store) (id : Nat) : Nat :=
  (s.claimed.filter fun ce => ce.entryID == id).length

/-! ## Concrete sample values used by the closed instance theorems -/

/-- A sample master key. -/
def sampleKey : List Nat := [7, 7, 7]

/-- A sample service configuration (`maxAttempts = 3`). -/
def sampleSvc : EntryService := ⟨sampleKey, 3⟩

/-- A sample 12-byte nonce (every byte `0xAB`, hex rendering `"ab"`…). -/
def sampleNonce : List Nat := List.replicate 12 171

/-- A sample active entry created with secret phrase `"phrase"` and
plaintext `"hi"`, expiring at instant 100. -/
def sampleEntry : Entry :=
  ⟨1, "pass", 2, "to@x.io", sampleNonce,
    gcmSeal (deriveKey sampleKey "phrase") sampleNonce (strBytes "hi"), 0, 0, 100⟩

/-- A store holding just `sampleEntry`. -/
def sampleStore : Store := ⟨[sampleEntry], [], []⟩

/-- A sample entry already past its deadline (expires at instant 50). -/
def lateEntry : Entry := ⟨3, "old", 2, "to@x.io", sampleNonce, [9], 0, 0, 50⟩

/-- A store holding just `lateEntry`. -/
def lateStore : Store := ⟨[lateEntry], [], []⟩

/-- A sample valid creation request. -/
def sampleReq : CreateEntryRequest := ⟨"gift", 2, "a@b.io", "topsecret", "pw", 60⟩

/-- A sample token-manager configuration. -/
def sampleTM : TokenManager := ⟨[3, 1, 4], 900, 3600⟩

/-- A creation request violating every validation rule at once. -/
def badReq : CreateEntryRequest := ⟨" ", uuidNil, "", "  ", " ", -5⟩

/-- A service configuration whose attempt limit is a single guess. -/
def oneSvc : EntryService := ⟨sampleKey, 1⟩

/-- A valid creation request whose secret phrase carries surrounding
whitespace. -/
def req9 : CreateEntryRequest := ⟨"gift", 2, "a@b.io", "topsecret", " pw ", 60⟩

/-- A sample claim set (expires at 2000, issued at 900, identity 42). -/
def sampleClaims : MapClaims := ⟨some 2000, some 900, some (uuidStr 42)⟩

/-! ## Statement abbreviations for the claim theorems -/

/-- Conclusion of the transition-unit claim for one entry: both units
(expire and claim) are create-projection-then-delete-original, the id
leaves the active table, and afterwards exactly one terminal projection
carries the id, so the id is in exactly one of the stores. -/
def transitionUnitProp (s : Store) (now : Int) (e : Entry) (b : Bool) : Prop :=
  ((expireEntry s now e b).1 =
      (Store.createExpiredRow s (mkExpired e b now)).deleteRow e.id ∧
    e.id ∉ activeIds (expireEntry s now e b).1 ∧
    expiredCount (expireEntry s now e b).1 e.id = 1 ∧
    claimedCount (expireEntry s now e b).1 e.id = 0) ∧
  ((claimEntry s now e).1 =
      (Store.createClaimedRow s (mkClaimed e now)).deleteRow e.id ∧
    e.id ∉ activeIds (claimEntry s now e).1 ∧
    claimedCount (claimEntry s now e).1 e.id = 1 ∧
    expiredCount (claimEntry s now e).1 e.id = 0)

/-- Conclusion of the claim that expiry is discovered before the nonce is
even looked at: any presented nonce (and secret) triggers the time-expiry
transition and yields the not-found outcome. -/
def expiryBeforeNonceProp (svc : EntryService) (s : Store) (now : Int)
    (id : Nat) (e : Entry) : Prop :=
  (∀ nonce, findEntry s now id nonce = ((expireEntry s now e false).1, none)) ∧
  (∀ nonce secret,
    decryptEntry svc s now ⟨id, nonce, secret⟩ =
      some ((expireEntry s now e false).1,
        ⟨false, ["Invalid entry ID."], false, none⟩)) ∧
  mkExpired e false now ∈ (expireEntry s now e false).1.expired ∧
  id ∉ activeIds (expireEntry s now e false).1

/-- Conclusion of the attempt-accounting claim: a wrong-secret decrypt on
an active entry never yields the plaintext, increments the counter by
exactly one and re-reads it; exactly when the new count reaches the
configured maximum the entry is expired with `tooManyAttempts` and the
response also reports the expiry, otherwise only "Invalid secret." is
reported and the entry stays active with the incremented counter. -/
def attemptAccountingProp (svc : EntryService) (s : Store) (now : Int)
    (e : Entry) (sec : String) : Prop :=
  (svc.maxAttempts ≤ e.invalidAttempts + 1 →
    decryptEntry svc s now ⟨e.id, hexEncode e.nonce, sec⟩ =
      some ((expireEntry (s.incrementRow e.id).1 now e true).1,
        ⟨false,
          ["Invalid secret.",
            "Too many attempts have been made, and the entry has been expired."],
          true, none⟩) ∧
    mkExpired e true now ∈ (expireEntry (s.incrementRow e.id).1 now e true).1.expired ∧
    e.id ∉ activeIds (expireEntry (s.incrementRow e.id).1 now e true).1) ∧
  (e.invalidAttempts + 1 < svc.maxAttempts →
    decryptEntry svc s now ⟨e.id, hexEncode e.nonce, sec⟩ =
      some ((s.incrementRow e.id).1, ⟨false, ["Invalid secret."], false, none⟩) ∧
    (s.incrementRow e.id).1.findRow e.id =
      some { e with invalidAttempts := e.invalidAttempts + 1 } ∧
    (s.incrementRow e.id).1.expired = s.expired ∧
    (s.incrementRow e.id).1.claimed = s.claimed)

/-- Conclusion of the one-time-reveal claim: creation succeeds and returns
the new entry; decrypting once with the created id, the hex-encoded nonce
and the same secret succeeds with the original plaintext and removes the
id from active storage; an identical second decrypt (at any instant)
reports "Invalid entry ID." and leaves the store unchanged. -/
def oneTimeRevealProp (svc : EntryService) (s : Store) (now now2 now3 : Int)
    (newID : Nat) (nonce : List Nat) (req : CreateEntryRequest) : Prop :=
  (createEntry svc s now newID nonce req).2.success = true ∧
  (createEntry svc s now newID nonce req).2.entry =
    some (newEntry svc now newID nonce req) ∧
  ∃ s2,
    decryptEntry svc (createEntry svc s now newID nonce req).1 now2
        ⟨newID, hexEncode nonce, req.secret⟩ =
      some (s2, ⟨true, [], false,
        some { newEntry svc now newID nonce req with value := strBytes req.value }⟩) ∧
    newID ∉ activeIds s2 ∧
    decryptEntry svc s2 now3 ⟨newID, hexEncode nonce, req.secret⟩ =
      some (s2, ⟨false, ["Invalid entry ID."], false, none⟩)

/-- Conclusion of the exact-phrase key-derivation claim: a phrase with
surrounding whitespace is accepted by validation, decrypting with the
identical untrimmed phrase succeeds with the original plaintext, and
decrypting with the trimmed variant fails as a wrong secret and is
counted as an invalid attempt (expiring the entry exactly when the limit
is one). -/
def exactPhraseProp (svc : EntryService) (s : Store) (now now2 now3 : Int)
    (newID : Nat) (nonce : List Nat) (req : CreateEntryRequest) : Prop :=
  (createEntry svc s now newID nonce req).2.success = true ∧
  (∃ s2,
    decryptEntry svc (createEntry svc s now newID nonce req).1 now2
        ⟨newID, hexEncode nonce, req.secret⟩ =
      some (s2, ⟨true, [], false,
        some { newEntry svc now newID nonce req with value := strBytes req.value }⟩)) ∧
  (svc.maxAttempts ≤ 1 →
    decryptEntry svc (createEntry svc s now newID nonce req).1 now3
        ⟨newID, hexEncode nonce, trimSpace req.secret⟩ =
      some ((expireEntry
          ((createEntry svc s now newID nonce req).1.incrementRow newID).1
          now3 (newEntry svc now newID nonce req) true).1,
        ⟨false,
          ["Invalid secret.",
            "Too many attempts have been made, and the entry has been expired."],
          true, none⟩)) ∧
  (1 < svc.maxAttempts →
    decryptEntry svc (createEntry svc s now newID nonce req).1 now3
        ⟨newID, hexEncode nonce, trimSpace req.secret⟩ =
      some (((createEntry svc s now newID nonce req).1.incrementRow newID).1,
        ⟨false, ["Invalid secret."], false, none⟩) ∧
    ((createEntry svc s now newID nonce req).1.incrementRow newID).1.findRow newID =
      some { newEntry svc now newID nonce req with invalidAttempts := 1 })

/-! ## Lemmas about the primitives -/

theorem gcmOpen_gcmSeal (key nonce pt : List Nat) :
    gcmOpen key nonce (gcmSeal key nonce pt) = some pt := by
  simp [gcmOpen, gcmSeal, List.take_left, List.drop_left]

theorem gcmOpen_gcmSeal_of_ne (key key' nonce nonce' pt : List Nat)
    (h : key' ≠ key) : gcmOpen key' nonce' (gcmSeal key nonce pt) = none := by
  simp only [gcmSeal, gcmOpen]
  rw [if_neg]
  rintro ⟨-, h2⟩
  rw [List.take_left] at h2
  exact h h2.symm

theorem char_toNat_injective : Function.Injective Char.toNat := by
  intro c d h
  have hc := Char.ofNat_toNat c
  rw [h, Char.ofNat_toNat] at hc
  exact hc.symm

theorem strBytes_injective : Function.Injective strBytes := by
  intro s t h
  have hd : s.data = t.data :=
    List.map_injective_iff.mpr char_toNat_injective h
  cases s
  cases t
  exact congrArg String.mk hd

theorem deriveKey_injective (k : List Nat) {s t : String}
    (h : deriveKey k s = deriveKey k t) : s = t :=
  strBytes_injective (List.append_cancel_left h)

theorem decDigitVal_decDigitChar : ∀ d < 10, decDigitVal (decDigitChar d) = some d := by
  decide

theorem uuidParseRev_natDigitsRev (fuel : Nat) :
    ∀ n, n ≠ 0 → n ≤ fuel →
      uuidParseRev ((natDigitsRev fuel n).map decDigitChar) = some n := by
  induction fuel with
  | zero => intro n h0 hle; omega
  | succ f ih =>
    intro n h0 _
    simp only [natDigitsRev, if_neg h0, List.map_cons, uuidParseRev]
    rw [decDigitVal_decDigitChar _ (Nat.mod_lt _ (by norm_num))]
    by_cases hq : n / 10 = 0
    · rw [hq]
      have hz : natDigitsRev f 0 = [] := by cases f <;> simp [natDigitsRev]
      rw [hz]
      simp only [List.map_nil, uuidParseRev]
      have : n % 10 = n := Nat.mod_eq_of_lt (by omega)
      simp [this]
    · have h1 : n / 10 ≤ f := by
        have := Nat.div_lt_self (Nat.pos_of_ne_zero h0) (by norm_num : 1 < 10)
        omega
      rw [ih (n / 10) hq h1]
      have : n % 10 + 10 * (n / 10) = n := Nat.mod_add_div n 10
      simp [this]

theorem uuidParse_uuidStr (n : Nat) : uuidParse (uuidStr n) = some n := by
  by_cases h0 : n = 0
  · subst h0; decide
  · have hne : natDigitsRev n n ≠ [] := by
      cases n with
      | zero => exact absurd rfl h0
      | succ m => simp [natDigitsRev]
    simp only [uuidStr, uuidParse, uuidChars, if_neg h0]
    rw [if_neg, List.map_reverse, List.reverse_reverse]
    · exact uuidParseRev_natDigitsRev n n h0 le_rfl
    · simp [hne]

theorem find?_append_of_none {α} (p : α → Bool) {l1 : List α} (l2 : List α)
    (h : l1.find? p = none) : (l1 ++ l2).find? p = l2.find? p := by
  rw [List.find?_append, h, Option.none_or]

theorem find?_map_of_id_preserved {f : Entry → Entry} (hf : ∀ x, (f x).id = x.id)
    (id : Nat) (l : List Entry) (e : Entry)
    (h : l.find? (fun x => x.id == id) = some e) :
    (l.map f).find? (fun x => x.id == id) = some (f e) := by
  induction l with
  | nil => simp at h
  | cons a l ih =>
    cases hb : (a.id == id) with
    | true =>
      simp only [List.find?_cons, hb] at h
      cases h
      have hfb : ((f e).id == id) = true := by rw [hf e]; exact hb
      simp only [List.map_cons, List.find?_cons, hfb]
    | false =>
      simp only [List.find?_cons, hb] at h
      have hfb : ((f a).id == id) = false := by rw [hf a]; exact hb
      simp only [List.map_cons, List.find?_cons, hfb]
      exact ih h

theorem find?_incrementRow (id : Nat) (l : List Entry) (e : Entry)
    (h : l.find? (fun x => x.id == id) = some e) (hid : e.id = id) :
    (l.map fun x =>
        if x.id == id then { x with invalidAttempts := x.invalidAttempts + 1 }
        else x).find? (fun x => x.id == id) =
      some { e with invalidAttempts := e.invalidAttempts + 1 } := by
  have hpres : ∀ x : Entry,
      ((if x.id == id then { x with invalidAttempts := x.invalidAttempts + 1 }
        else x) : Entry).id = x.id := by
    intro x
    by_cases hx : x.id = id <;> simp [hx]
  have := find?_map_of_id_preserved hpres id l e h
  rwa [if_pos (by simp [hid])] at this

theorem expireLoop_snd (now : Int) (l : List Entry) :
    ∀ s : Store, (expireLoop now l s).2 = l.filter fun e => decide (now < e.expiresAtUTC) := by
  induction l with
  | nil => intro s; simp [expireLoop]
  | cons e rest ih =>
    intro s
    by_cases h : now < e.expiresAtUTC
    · simp [expireLoop, h, ih]
    · simp [expireLoop, h, ih]

theorem expireLoop_expired_mono (now : Int) (l : List Entry) :
    ∀ s : Store, ∀ x ∈ s.expired, x ∈ (expireLoop now l s).1.expired := by
  induction l with
  | nil => intro s x hx; simpa [expireLoop] using hx
  | cons e rest ih =>
    intro s x hx
    by_cases h : now < e.expiresAtUTC
    · simp only [expireLoop, if_pos h]
      exact ih s x hx
    · simp only [expireLoop, if_neg h]
      exact ih _ x (by simp [expireEntry, Store.createExpiredRow, Store.deleteRow, hx])

theorem expireLoop_creates (now : Int) (l : List Entry) :
    ∀ s : Store, ∀ e ∈ l, e.expiresAtUTC ≤ now →
      mkExpired e false now ∈ (expireLoop now l s).1.expired := by
  induction l with
  | nil => intro _ e he; exact absurd he (List.not_mem_nil e)
  | cons a rest ih =>
    intro s e he hexp
    rcases List.mem_cons.mp he with rfl | hmem
    · rw [expireLoop, if_neg (by omega)]
      exact expireLoop_expired_mono now rest _ _
        (by simp [expireEntry, Store.createExpiredRow, Store.deleteRow])
    · by_cases h : now < a.expiresAtUTC
      · rw [expireLoop, if_pos h]
        exact ih s e hmem hexp
      · rw [expireLoop, if_neg h]
        exact ih _ e hmem hexp

theorem expireLoop_entries_subset (now : Int) (l : List Entry) :
    ∀ s : Store, ∀ x, x ∈ (expireLoop now l s).1.entries → x ∈ s.entries := by
  induction l with
  | nil => intro s x hx; simpa [expireLoop] using hx
  | cons e rest ih =>
    intro s x hx
    by_cases h : now < e.expiresAtUTC
    · rw [expireLoop, if_pos h] at hx
      exact ih s x hx
    · rw [expireLoop, if_neg h] at hx
      have := ih _ x hx
      simp only [expireEntry, Store.createExpiredRow, Store.deleteRow] at this
      exact List.mem_of_mem_filter this

theorem expireLoop_deletes (now : Int) (l : List Entry) :
    ∀ s : Store, ∀ e ∈ l, e.expiresAtUTC ≤ now →
      e ∉ (expireLoop now l s).1.entries := by
  induction l with
  | nil => intro _ e he; exact absurd he (List.not_mem_nil e)
  | cons a rest ih =>
    intro s e he hexp hmem
    rcases List.mem_cons.mp he with rfl | hin
    · rw [expireLoop, if_neg (by omega)] at hmem
      have := expireLoop_entries_subset now rest _ e hmem
      simp only [expireEntry, Store.createExpiredRow, Store.deleteRow] at this
      have := List.of_mem_filter this
      simp at this
    · by_cases h : now < a.expiresAtUTC
      · rw [expireLoop, if_pos h] at hmem
        exact ih s e hin hexp hmem
      · rw [expireLoop, if_neg h] at hmem
        exact ih _ e hin hexp hmem

theorem findByUserIDRows_sorted (s : Store) (uid : Nat) :
    List.Sorted createdLE (s.findByUserIDRows uid) :=
  List.sorted_insertionSort createdLE _

theorem mem_findByUserIDRows {s : Store} {uid : Nat} {e : Entry} :
    e ∈ s.findByUserIDRows uid ↔ e ∈ s.entries ∧ e.sentByUserID = uid := by
  rw [Store.findByUserIDRows, (List.perm_insertionSort createdLE _).mem_iff]
  simp

theorem mem_ite_singleton {c : Prop} [Decidable c] (a b : String) :
    (a ∈ (if c then [b] else [])) ↔ c ∧ a = b := by
  split <;> simp_all

theorem id_not_mem_activeIds_deleteRow (s : Store) (id : Nat) :
    id ∉ activeIds (s.deleteRow id) := by
  intro hmem
  simp only [Store.deleteRow, activeIds, List.mem_map, List.mem_filter,
    bne_iff_ne] at hmem
  obtain ⟨x, ⟨-, hne⟩, hxid⟩ := hmem
  exact hne hxid

/-! ## Claim theorems -/

/-- C3: every transition out of the `Active` state — the time/attempt
expiry unit (`expireEntry`) and the claim unit (`claimEntry`) — inserts
exactly one terminal projection and deletes the active record, in the
order create-projection-then-delete-original, so afterwards the entry id
exists in exactly one of the active store and the projection stores,
never in neither. -/
theorem c3_transition_unit (s : Store) (now : Int) (e : Entry) (b : Bool)
    (hexp : expiredCount s e.id = 0) (hcl : claimedCount s e.id = 0) :
    transitionUnitProp s now e b := by
  have hexp0 : (s.expired.filter fun ee => ee.entryID == e.id) = [] :=
    List.length_eq_zero.mp hexp
  have hcl0 : (s.claimed.filter fun ce => ce.entryID == e.id) = [] :=
    List.length_eq_zero.mp hcl
  constructor
  · refine ⟨rfl, ?_, ?_, ?_⟩
    · exact id_not_mem_activeIds_deleteRow _ e.id
    · simp [expireEntry, Store.createExpiredRow, Store.deleteRow, expiredCount,
        List.filter_append, hexp0, mkExpired]
    · simpa [expireEntry, Store.createExpiredRow, Store.deleteRow,
        claimedCount] using hcl
  · refine ⟨rfl, ?_, ?_, ?_⟩
    · exact id_not_mem_activeIds_deleteRow _ e.id
    · simp [claimEntry, Store.createClaimedRow, Store.deleteRow, claimedCount,
        List.filter_append, hcl0, mkClaimed]
    · simpa [claimEntry, Store.createClaimedRow, Store.deleteRow,
        expiredCount] using hexp

theorem c3_transition_unit_witness :
    expiredCount sampleStore sampleEntry.id = 0 ∧
    claimedCount sampleStore sampleEntry.id = 0 ∧
    transitionUnitProp sampleStore 5 sampleEntry true :=
  ⟨by decide, by decide,
    c3_transition_unit sampleStore 5 sampleEntry true (by decide) (by decide)⟩

/-- C10: for an entry past its deadline, `FindEntry` (and therefore
`DecryptEntry`) performs the `Expired{TimeExpired}` transition and reports
not-found for every presented nonce string, wrong or malformed ones
included — the nonce comparison is never reached. -/
theorem c10_expiry_precedes_nonce (svc : EntryService) (s : Store) (now : Int)
    (id : Nat) (e : Entry) (hfind : s.findRow id = some e)
    (hexp : e.expiresAtUTC ≤ now) :
    expiryBeforeNonceProp svc s now id e := by
  have hid : e.id = id := by simpa using List.find?_some hfind
  have hfe : ∀ nonce, findEntry s now id nonce = ((expireEntry s now e false).1, none) := by
    intro nonce
    simp [findEntry, hfind, hexp]
  refine ⟨hfe, ?_, ?_, ?_⟩
  · intro nonce secret
    simp [decryptEntry, hfe nonce]
  · simp [expireEntry, Store.createExpiredRow, Store.deleteRow]
  · rw [← hid]
    exact id_not_mem_activeIds_deleteRow _ e.id

theorem c10_expiry_precedes_nonce_witness :
    lateStore.findRow 3 = some lateEntry ∧
    lateEntry.expiresAtUTC ≤ 200 ∧
    expiryBeforeNonceProp sampleSvc lateStore 200 3 lateEntry :=
  ⟨by decide, by decide,
    c10_expiry_precedes_nonce sampleSvc lateStore 200 3 lateEntry
      (by decide) (by decide)⟩

/-- C5, counterexample: a presented nonce string whose hex decoding equals
the stored 12-byte nonce (uppercase hex digits) is nevertheless reported
not-found, because `FindEntry` compares the presented string against
`hex.EncodeToString(entry.Nonce)` for string equality rather than
comparing decoded bytes. -/
theorem c5_counterexample :
    hexDecode "ABABABABABABABABABABABAB" = some sampleEntry.nonce ∧
    sampleStore.findRow 1 = some sampleEntry ∧
    (0 : Int) < sampleEntry.expiresAtUTC ∧
    findEntry sampleStore 0 1 "ABABABABABABABABABABABAB" = (sampleStore, none) := by
  refine ⟨by decide, by decide, by decide, by decide⟩

/-- C5, amended: for a stored unexpired entry, `FindEntry` matches the
presented string exactly against the lowercase hex rendering of the
stored nonce; it returns the entry unmodified on the exact rendering,
and every other string — including other hex spellings of the same
bytes — produces literally the same outcome as a nonexistent id. -/
theorem c5_nonce_exact_string_match (s : Store) (now : Int) (id : Nat)
    (e : Entry) (hfind : s.findRow id = some e)
    (hactive : now < e.expiresAtUTC) :
    (∀ pres, pres = hexEncode e.nonce → findEntry s now id pres = (s, some e)) ∧
    (∀ pres, pres ≠ hexEncode e.nonce → findEntry s now id pres = (s, none)) ∧
    (∀ id' pres, s.findRow id' = none → findEntry s now id' pres = (s, none)) := by
  have hnle : ¬ e.expiresAtUTC ≤ now := by omega
  refine ⟨?_, ?_, ?_⟩
  · intro pres hp
    simp [findEntry, hfind, hnle, hp]
  · intro pres hp
    simp [findEntry, hfind, hnle, Ne.symm hp]
  · intro id' pres hnone
    simp [findEntry, hnone]

theorem c5_nonce_exact_string_match_witness :
    sampleStore.findRow 1 = some sampleEntry ∧
    (0 : Int) < sampleEntry.expiresAtUTC ∧
    ((∀ pres, pres = hexEncode sampleEntry.nonce →
        findEntry sampleStore 0 1 pres = (sampleStore, some sampleEntry)) ∧
      (∀ pres, pres ≠ hexEncode sampleEntry.nonce →
        findEntry sampleStore 0 1 pres = (sampleStore, none)) ∧
      (∀ id' pres, sampleStore.findRow id' = none →
        findEntry sampleStore 0 id' pres = (sampleStore, none))) :=
  ⟨by decide, by decide,
    c5_nonce_exact_string_match sampleStore 0 1 sampleEntry (by decide) (by decide)⟩

/-- C6: a creation request violating one or more validation rules yields
an unsuccessful response listing one message per violated rule (all of
them, in source order), with no entry and no change whatsoever to the
store — no write, no partial state. -/
theorem c6_create_validation (svc : EntryService) (s : Store) (now : Int)
    (newID : Nat) (nonce : List Nat) (req : CreateEntryRequest)
    (h : createEntryErrors req ≠ []) :
    createEntry svc s now newID nonce req = (s, ⟨false, createEntryErrors req, none⟩) ∧
    ("A sender ID is required." ∈ createEntryErrors req ↔ req.senderID = uuidNil) ∧
    ("A name is required." ∈ createEntryErrors req ↔ trimSpace req.name = "") ∧
    ("A send to email is required." ∈ createEntryErrors req ↔
      trimSpace req.sendToEmail = "") ∧
    ("A value is required." ∈ createEntryErrors req ↔ trimSpace req.value = "") ∧
    ("A secret is required." ∈ createEntryErrors req ↔ trimSpace req.secret = "") ∧
    ("Duration must be greater than 0." ∈ createEntryErrors req ↔ req.duration ≤ 0) := by
  refine ⟨by simp [createEntry, h], ?_, ?_, ?_, ?_, ?_, ?_⟩ <;>
    simp [createEntryErrors, mem_ite_singleton]

theorem c6_create_validation_witness :
    createEntryErrors badReq ≠ [] ∧
    (createEntry sampleSvc sampleStore 0 9 sampleNonce badReq =
        (sampleStore, ⟨false, createEntryErrors badReq, none⟩) ∧
      ("A sender ID is required." ∈ createEntryErrors badReq ↔ badReq.senderID = uuidNil) ∧
      ("A name is required." ∈ createEntryErrors badReq ↔ trimSpace badReq.name = "") ∧
      ("A send to email is required." ∈ createEntryErrors badReq ↔
        trimSpace badReq.sendToEmail = "") ∧
      ("A value is required." ∈ createEntryErrors badReq ↔ trimSpace badReq.value = "") ∧
      ("A secret is required." ∈ createEntryErrors badReq ↔ trimSpace badReq.secret = "") ∧
      ("Duration must be greater than 0." ∈ createEntryErrors badReq ↔
        badReq.duration ≤ 0)) :=
  ⟨by decide, c6_create_validation sampleSvc sampleStore 0 9 sampleNonce badReq (by decide)⟩

/-- C4: lazy expiry on access.  For an entry whose deadline has passed,
`FindEntry` performs the `Expired{TimeExpired}` transition (projection
with `tooManyAttempts = false` created, active record deleted) and
reports not-found; `FindByUserID` performs the same per-entry check,
transitions each expired entry identically, excludes it from the result,
and lists the remaining entries oldest first. -/
theorem c4_lazy_expiry (s : Store) (now : Int) :
    (∀ id e nonce, s.findRow id = some e → e.expiresAtUTC ≤ now →
      findEntry s now id nonce = ((expireEntry s now e false).1, none) ∧
      mkExpired e false now ∈ (expireEntry s now e false).1.expired ∧
      id ∉ activeIds (expireEntry s now e false).1) ∧
    (∀ uid e, e ∈ s.entries → e.sentByUserID = uid → e.expiresAtUTC ≤ now →
      e ∉ (findByUserID s now uid).2 ∧
      mkExpired e false now ∈ (findByUserID s now uid).1.expired ∧
      e ∉ (findByUserID s now uid).1.entries) ∧
    (∀ uid, List.Sorted createdLE (findByUserID s now uid).2) := by
  refine ⟨?_, ?_, ?_⟩
  · intro id e nonce hfind hexp
    have hid : e.id = id := by simpa using List.find?_some hfind
    refine ⟨by simp [findEntry, hfind, hexp], ?_, ?_⟩
    · simp [expireEntry, Store.createExpiredRow, Store.deleteRow]
    · rw [← hid]
      exact id_not_mem_activeIds_deleteRow _ e.id
  · intro uid e he heq hexp
    have hrows : e ∈ s.findByUserIDRows uid := mem_findByUserIDRows.mpr ⟨he, heq⟩
    refine ⟨?_, ?_, ?_⟩
    · rw [findByUserID, expireLoop_snd now (s.findByUserIDRows uid) s]
      intro hmem
      have := (List.mem_filter.mp hmem).2
      simp only [decide_eq_true_eq] at this
      omega
    · exact expireLoop_creates now (s.findByUserIDRows uid) s e hrows hexp
    · exact expireLoop_deletes now (s.findByUserIDRows uid) s e hrows hexp
  · intro uid
    rw [findByUserID, expireLoop_snd now (s.findByUserIDRows uid) s]
    exact List.Pairwise.filter _ (findByUserIDRows_sorted s uid)

theorem c4_lazy_expiry_witness :
    lateStore.findRow 3 = some lateEntry ∧
    lateEntry.expiresAtUTC ≤ 200 ∧
    lateEntry ∈ lateStore.entries ∧
    lateEntry.sentByUserID = 2 ∧
    findEntry lateStore 200 3 "ffff" = ((expireEntry lateStore 200 lateEntry false).1, none) ∧
    lateEntry ∉ (findByUserID lateStore 200 2).2 ∧
    mkExpired lateEntry false 200 ∈ (findByUserID lateStore 200 2).1.expired ∧
    lateEntry ∉ (findByUserID lateStore 200 2).1.entries ∧
    List.Sorted createdLE (findByUserID lateStore 200 2).2 := by
  obtain ⟨h1, h2, h3⟩ := c4_lazy_expiry lateStore 200
  obtain ⟨hb1, hb2, hb3⟩ := h2 2 lateEntry (by decide) (by decide) (by decide)
  exact ⟨by decide, by decide, by decide, by decide,
    (h1 3 lateEntry "ffff" (by decide) (by decide)).1, hb1, hb2, hb3, h3 2⟩

/-- C2: attempt accounting and limit, for an active entry found by
`FindEntry` (correct id and nonce) whose ciphertext was sealed under
secret `sec0`, when the presented secret is different. -/
theorem c2_attempt_accounting (svc : EntryService) (s : Store) (now : Int)
    (e : Entry) (sec sec0 : String) (pt : List Nat)
    (hfind : s.findRow e.id = some e)
    (hactive : now < e.expiresAtUTC)
    (hval : e.value = gcmSeal (deriveKey svc.aesKey sec0) e.nonce pt)
    (hne : sec ≠ sec0) :
    attemptAccountingProp svc s now e sec := by
  have hkey : deriveKey svc.aesKey sec ≠ deriveKey svc.aesKey sec0 := fun h =>
    hne (deriveKey_injective _ h)
  have hopen : gcmOpen (deriveKey svc.aesKey sec) e.nonce e.value = none := by
    rw [hval]
    exact gcmOpen_gcmSeal_of_ne _ _ _ _ _ hkey
  have hnle : ¬ e.expiresAtUTC ≤ now := by omega
  have hfe : findEntry s now e.id (hexEncode e.nonce) = (s, some e) := by
    simp [findEntry, hfind, hnle]
  have hinc : (s.incrementRow e.id).2 = some (e.invalidAttempts + 1) := by
    simp only [Store.incrementRow]
    rw [find?_incrementRow e.id s.entries e hfind rfl]
    rfl
  constructor
  · intro hmax
    refine ⟨?_, ?_, ?_⟩
    · simp [decryptEntry, hfe, hopen, svcIncrementInvalidAttempts, hinc, hmax]
    · simp [expireEntry, Store.createExpiredRow, Store.deleteRow]
    · exact id_not_mem_activeIds_deleteRow _ e.id
  · intro hlt
    have hnmax : ¬ (e.invalidAttempts + 1 ≥ svc.maxAttempts) := by omega
    refine ⟨?_, ?_, rfl, rfl⟩
    · simp [decryptEntry, hfe, hopen, svcIncrementInvalidAttempts, hinc, hnmax]
    · exact find?_incrementRow e.id s.entries e hfind rfl

theorem c2_attempt_accounting_witness :
    sampleStore.findRow sampleEntry.id = some sampleEntry ∧
    (10 : Int) < sampleEntry.expiresAtUTC ∧
    "wrong" ≠ "phrase" ∧
    attemptAccountingProp sampleSvc sampleStore 10 sampleEntry "wrong" ∧
    attemptAccountingProp oneSvc sampleStore 10 sampleEntry "wrong" :=
  ⟨by decide, by decide, by decide,
    c2_attempt_accounting sampleSvc sampleStore 10 sampleEntry "wrong" "phrase"
      (strBytes "hi") (by decide) (by decide) rfl (by decide),
    c2_attempt_accounting oneSvc sampleStore 10 sampleEntry "wrong" "phrase"
      (strBytes "hi") (by decide) (by decide) rfl (by decide)⟩

/-- C1: one-time reveal.  For every valid creation input (no validation
error, fresh id) a decrypt with the created id, the hex rendering of its
nonce and the same secret — before the deadline — returns the original
plaintext and deletes the entry from active storage in the same
operation, and an identical second decrypt reports "Invalid entry ID.". -/
theorem c1_one_time_reveal (svc : EntryService) (s : Store)
    (now now2 now3 : Int) (newID : Nat) (nonce : List Nat)
    (req : CreateEntryRequest)
    (hv : createEntryErrors req = [])
    (hfresh : ∀ x ∈ s.entries, x.id ≠ newID)
    (h2 : now2 < now + req.duration) :
    oneTimeRevealProp svc s now now2 now3 newID nonce req := by
  have hc : createEntry svc s now newID nonce req =
      ({ s with entries := s.entries ++ [newEntry svc now newID nonce req] },
        ⟨true, [], some (newEntry svc now newID nonce req)⟩) := by
    simp [createEntry, hv]
  have hnone : s.entries.find? (fun x => x.id == newID) = none :=
    List.find?_eq_none.mpr fun x hx => by simp [hfresh x hx]
  have hfind1 :
      ({ s with entries := s.entries ++ [newEntry svc now newID nonce req] } :
        Store).findRow newID = some (newEntry svc now newID nonce req) := by
    show (s.entries ++ [newEntry svc now newID nonce req]).find?
        (fun x => x.id == newID) = some (newEntry svc now newID nonce req)
    rw [find?_append_of_none _ _ hnone]
    simp [newEntry]
  have hnle : ¬ (newEntry svc now newID nonce req).expiresAtUTC ≤ now2 := by
    simp only [newEntry]
    omega
  have hnonce : (newEntry svc now newID nonce req).nonce = nonce := rfl
  have hfe : findEntry
      { s with entries := s.entries ++ [newEntry svc now newID nonce req] }
      now2 newID (hexEncode nonce) =
      ({ s with entries := s.entries ++ [newEntry svc now newID nonce req] },
        some (newEntry svc now newID nonce req)) := by
    simp [findEntry, hfind1, hnle, hnonce]
  have hopen : gcmOpen (deriveKey svc.aesKey req.secret)
      (newEntry svc now newID nonce req).nonce
      (newEntry svc now newID nonce req).value = some (strBytes req.value) := by
    simp only [newEntry]
    exact gcmOpen_gcmSeal _ _ _
  refine ⟨by rw [hc], by rw [hc], ?_⟩
  refine ⟨(claimEntry
      { s with entries := s.entries ++ [newEntry svc now newID nonce req] }
      now2 (newEntry svc now newID nonce req)).1, ?_, ?_, ?_⟩
  · rw [hc]
    simp [decryptEntry, hfe, hopen]
  · exact id_not_mem_activeIds_deleteRow _ newID
  · have hfind2 : ((claimEntry
        { s with entries := s.entries ++ [newEntry svc now newID nonce req] }
        now2 (newEntry svc now newID nonce req)).1).findRow newID = none := by
      apply List.find?_eq_none.mpr
      intro x hx
      have hne := List.of_mem_filter hx
      simp only [newEntry, bne_iff_ne] at hne
      simp [hne]
    simp [decryptEntry, findEntry, hfind2]

theorem c1_one_time_reveal_witness :
    createEntryErrors sampleReq = [] ∧
    (∀ x ∈ sampleStore.entries, x.id ≠ 9) ∧
    (10 : Int) < 0 + sampleReq.duration ∧
    oneTimeRevealProp sampleSvc sampleStore 0 10 20 9 sampleNonce sampleReq :=
  ⟨by decide, by decide, by decide,
    c1_one_time_reveal sampleSvc sampleStore 0 10 20 9 sampleNonce sampleReq
      (by decide) (by decide) (by decide)⟩

/-- C9: the per-entry key is derived from the secret phrase's exact
bytes, with no trimming, even though validation only checks the trimmed
phrase: a phrase with surrounding whitespace is accepted, decrypts only
with the identical untrimmed phrase, and the trimmed variant fails as a
wrong secret and counts as an invalid attempt. -/
theorem c9_exact_phrase_key (svc : EntryService) (s : Store)
    (now now2 now3 : Int) (newID : Nat) (nonce : List Nat)
    (req : CreateEntryRequest)
    (hv : createEntryErrors req = [])
    (hws : req.secret ≠ trimSpace req.secret)
    (hfresh : ∀ x ∈ s.entries, x.id ≠ newID)
    (h2 : now2 < now + req.duration)
    (h3 : now3 < now + req.duration) :
    exactPhraseProp svc s now now2 now3 newID nonce req := by
  have hc : createEntry svc s now newID nonce req =
      ({ s with entries := s.entries ++ [newEntry svc now newID nonce req] },
        ⟨true, [], some (newEntry svc now newID nonce req)⟩) := by
    simp [createEntry, hv]
  have hnone : s.entries.find? (fun x => x.id == newID) = none :=
    List.find?_eq_none.mpr fun x hx => by simp [hfresh x hx]
  have hfind1 :
      ({ s with entries := s.entries ++ [newEntry svc now newID nonce req] } :
        Store).findRow newID = some (newEntry svc now newID nonce req) := by
    show (s.entries ++ [newEntry svc now newID nonce req]).find?
        (fun x => x.id == newID) = some (newEntry svc now newID nonce req)
    rw [find?_append_of_none _ _ hnone]
    simp [newEntry]
  have hnonce : (newEntry svc now newID nonce req).nonce = nonce := rfl
  have hnle2 : ¬ (newEntry svc now newID nonce req).expiresAtUTC ≤ now2 := by
    simp only [newEntry]
    omega
  have hnle3 : ¬ (newEntry svc now newID nonce req).expiresAtUTC ≤ now3 := by
    simp only [newEntry]
    omega
  have hfe2 : findEntry
      { s with entries := s.entries ++ [newEntry svc now newID nonce req] }
      now2 newID (hexEncode nonce) =
      ({ s with entries := s.entries ++ [newEntry svc now newID nonce req] },
        some (newEntry svc now newID nonce req)) := by
    simp [findEntry, hfind1, hnle2, hnonce]
  have hfe3 : findEntry
      { s with entries := s.entries ++ [newEntry svc now newID nonce req] }
      now3 newID (hexEncode nonce) =
      ({ s with entries := s.entries ++ [newEntry svc now newID nonce req] },
        some (newEntry svc now newID nonce req)) := by
    simp [findEntry, hfind1, hnle3, hnonce]
  have hopen : gcmOpen (deriveKey svc.aesKey req.secret)
      (newEntry svc now newID nonce req).nonce
      (newEntry svc now newID nonce req).value = some (strBytes req.value) := by
    simp only [newEntry]
    exact gcmOpen_gcmSeal _ _ _
  have hkey' : deriveKey svc.aesKey (trimSpace req.secret) ≠
      deriveKey svc.aesKey req.secret := fun h =>
    hws (deriveKey_injective _ h).symm
  have hopen' : gcmOpen (deriveKey svc.aesKey (trimSpace req.secret))
      (newEntry svc now newID nonce req).nonce
      (newEntry svc now newID nonce req).value = none := by
    simp only [newEntry]
    exact gcmOpen_gcmSeal_of_ne _ _ _ _ _ hkey'
  have hinc : (({ s with entries :=
        s.entries ++ [newEntry svc now newID nonce req] } :
      Store).incrementRow newID).2 = some 1 := by
    simp only [Store.incrementRow]
    rw [find?_incrementRow newID
      (s.entries ++ [newEntry svc now newID nonce req])
      (newEntry svc now newID nonce req) hfind1 rfl]
    rfl
  have hidE : (newEntry svc now newID nonce req).id = newID := rfl
  refine ⟨by rw [hc], ?_, ?_, ?_⟩
  · refine ⟨(claimEntry
      { s with entries := s.entries ++ [newEntry svc now newID nonce req] }
      now2 (newEntry svc now newID nonce req)).1, ?_⟩
    rw [hc]
    simp [decryptEntry, hfe2, hopen]
  · intro hmax
    rw [hc]
    simp [decryptEntry, hfe3, hopen', svcIncrementInvalidAttempts, hidE, hinc, hmax]
  · intro hlt
    have hnmax : ¬ (1 ≥ svc.maxAttempts) := by omega
    refine ⟨?_, ?_⟩
    · rw [hc]
      simp [decryptEntry, hfe3, hopen', svcIncrementInvalidAttempts, hidE, hinc, hnmax]
    · rw [hc]
      exact find?_incrementRow newID
        (s.entries ++ [newEntry svc now newID nonce req])
        (newEntry svc now newID nonce req) hfind1 rfl

theorem c9_exact_phrase_key_witness :
    createEntryErrors req9 = [] ∧
    req9.secret ≠ trimSpace req9.secret ∧
    exactPhraseProp sampleSvc sampleStore 0 10 20 9 sampleNonce req9 ∧
    exactPhraseProp oneSvc sampleStore 0 10 20 9 sampleNonce req9 :=
  ⟨by decide, by decide,
    c9_exact_phrase_key sampleSvc sampleStore 0 10 20 9 sampleNonce req9
      (by decide) (by decide) (by decide) (by decide) (by decide),
    c9_exact_phrase_key oneSvc sampleStore 0 10 20 9 sampleNonce req9
      (by decide) (by decide) (by decide) (by decide) (by decide)⟩

/-- C7: the access token issued for a user carries identifier, issued-at
`now` and expires-at `now + lifetime`, and verification with the same
signing key between issuance and the expiration instant returns exactly
the same user identifier. -/
theorem c7_access_token_roundtrip (m : TokenManager) (now now2 : Int)
    (userID : Nat)
    (hpos : 0 < m.accessTokenLifetime)
    (hiat : now ≤ now2)
    (hexp : now2 < now + m.accessTokenLifetime) :
    accessToken m now userID =
      ⟨Tok.jwt "HS256"
          ⟨some (now + m.accessTokenLifetime), some now, some (uuidStr userID)⟩
          (hmacSign m.privateKey "HS256"
            ⟨some (now + m.accessTokenLifetime), some now, some (uuidStr userID)⟩),
        now + m.accessTokenLifetime⟩ ∧
    verify m now2 (accessToken m now userID).token = Except.ok userID := by
  have hd1 : decide (now + m.accessTokenLifetime < now2) = false :=
    decide_eq_false (by omega)
  have hd2 : decide (now2 < now) = false := decide_eq_false (by omega)
  refine ⟨rfl, ?_⟩
  simp [verify, accessToken, isHMACAlg, hd1, hd2, uuidParse_uuidStr]

theorem c7_access_token_roundtrip_witness :
    (0 : Int) < sampleTM.accessTokenLifetime ∧
    (1000 : Int) ≤ 1500 ∧
    (1500 : Int) < 1000 + sampleTM.accessTokenLifetime ∧
    (accessToken sampleTM 1000 42 =
        ⟨Tok.jwt "HS256"
            ⟨some (1000 + sampleTM.accessTokenLifetime), some 1000, some (uuidStr 42)⟩
            (hmacSign sampleTM.privateKey "HS256"
              ⟨some (1000 + sampleTM.accessTokenLifetime), some 1000,
                some (uuidStr 42)⟩),
          1000 + sampleTM.accessTokenLifetime⟩ ∧
      verify sampleTM 1500 (accessToken sampleTM 1000 42).token = Except.ok 42) :=
  ⟨by decide, by decide, by decide,
    c7_access_token_roundtrip sampleTM 1000 1500 42 (by decide) (by decide) (by decide)⟩

/-- C8: `Verify` rejects the empty token, tokens whose algorithm header is
outside the HMAC family, tokens whose signature is not the tag of the
configured key over the token's own contents (in particular tokens signed
with a different key), tokens past their expiry instant, and tokens whose
identity claim is missing or unparseable — each class with its own stable
reason, and no user identifier is returned in any of these cases. -/
theorem c8_verify_rejections (m : TokenManager) (now : Int) :
    verify m now Tok.empty = Except.error "no token provided" ∧
    (∀ alg claims sig, isHMACAlg alg = false →
      verify m now (Tok.jwt alg claims sig) =
        Except.error ("unexpected signing method: " ++ alg)) ∧
    (∀ alg claims sig, isHMACAlg alg = true →
      sig ≠ hmacSign m.privateKey alg claims →
      verify m now (Tok.jwt alg claims sig) =
        Except.error "signature is invalid") ∧
    (∀ key' alg claims, key' ≠ m.privateKey →
      hmacSign key' alg claims ≠ hmacSign m.privateKey alg claims) ∧
    (∀ alg ia jt ex, isHMACAlg alg = true → ex < now →
      verify m now (Tok.jwt alg ⟨some ex, ia, jt⟩
          (hmacSign m.privateKey alg ⟨some ex, ia, jt⟩)) =
        Except.error "Token is expired") ∧
    (∀ alg ex ia jt, isHMACAlg alg = true →
      (∀ x, ex = some x → now ≤ x) →
      (∀ i, ia = some i → i ≤ now) →
      (jt = none ∨ ∃ str, jt = some str ∧ uuidParse str = none) →
      verify m now (Tok.jwt alg ⟨ex, ia, jt⟩
          (hmacSign m.privateKey alg ⟨ex, ia, jt⟩)) =
        Except.error "invalid token claims") ∧
    List.Nodup ["no token provided", "unexpected signing method: RS256",
      "signature is invalid", "Token is expired", "invalid token claims"] := by
  refine ⟨rfl, ?_, ?_, ?_, ?_, ?_, by decide⟩
  · intro alg claims sig halg
    simp [verify, halg]
  · intro alg claims sig halg hsig
    simp [verify, halg, hsig]
  · intro key' alg claims hk h
    exact hk (congrArg MacTag.key h)
  · intro alg ia jt ex halg hex
    simp [verify, halg, hex]
  · intro alg ex ia jt halg hexok hiatok hjti
    have hexf : (Option.any (fun e => decide (e < now)) ex) = false := by
      cases ex with
      | none => rfl
      | some x =>
        simpa using decide_eq_false (not_lt.mpr (hexok x rfl))
    have hiatf : (Option.any (fun i => decide (now < i)) ia) = false := by
      cases ia with
      | none => rfl
      | some i =>
        simpa using decide_eq_false (not_lt.mpr (hiatok i rfl))
    rcases hjti with rfl | ⟨str, rfl, hps⟩
    · simp [verify, halg, hexf, hiatf]
    · simp [verify, halg, hexf, hiatf, hps]

theorem c8_verify_rejections_witness :
    verify sampleTM 1000 Tok.empty = Except.error "no token provided" ∧
    verify sampleTM 1000
        (Tok.jwt "RS256" sampleClaims (hmacSign [9] "RS256" sampleClaims)) =
      Except.error "unexpected signing method: RS256" ∧
    verify sampleTM 1000
        (Tok.jwt "HS256" sampleClaims (hmacSign [9] "HS256" sampleClaims)) =
      Except.error "signature is invalid" ∧
    hmacSign [9] "HS256" sampleClaims ≠
      hmacSign sampleTM.privateKey "HS256" sampleClaims ∧
    verify sampleTM 1000
        (Tok.jwt "HS256" ⟨some 500, some 400, some (uuidStr 42)⟩
          (hmacSign sampleTM.privateKey "HS256"
            ⟨some 500, some 400, some (uuidStr 42)⟩)) =
      Except.error "Token is expired" ∧
    verify sampleTM 1000
        (Tok.jwt "HS256" ⟨some 2000, some 900, none⟩
          (hmacSign sampleTM.privateKey "HS256" ⟨some 2000, some 900, none⟩)) =
      Except.error "invalid token claims" ∧
    verify sampleTM 1000
        (Tok.jwt "HS256" ⟨some 2000, some 900, some "xy"⟩
          (hmacSign sampleTM.privateKey "HS256" ⟨some 2000, some 900, some "xy"⟩)) =
      Except.error "invalid token claims" ∧
    List.Nodup ["no token provided", "unexpected signing method: RS256",
      "signature is invalid", "Token is expired", "invalid token claims"] := by
  obtain ⟨ha, hb, hc, hd, he, hf, hg⟩ := c8_verify_rejections sampleTM 1000
  refine ⟨ha,
    hb "RS256" sampleClaims (hmacSign [9] "RS256" sampleClaims) (by decide),
    hc "HS256" sampleClaims (hmacSign [9] "HS256" sampleClaims) (by decide)
      (hd [9] "HS256" sampleClaims (by decide)),
    hd [9] "HS256" sampleClaims (by decide),
    he "HS256" (some 400) (some (uuidStr 42)) 500 (by decide) (by decide),
    hf "HS256" (some 2000) (some 900) none (by decide)
      (by intro x hx; cases hx; decide) (by intro i hi; cases hi; decide)
      (Or.inl rfl),
    hf "HS256" (some 2000) (some 900) (some "xy") (by decide)
      (by intro x hx; cases hx; decide) (by intro i hi; cases hi; decide)
      (Or.inr ⟨"xy", rfl, by decide⟩),
    hg⟩

end SendKey
